import Mathlib

/-!
Verification development for the go-theme repository: a theming-manifest
registry and resolver.  Go maps (`map[string]string` and friends) are embedded
as association lists with unique keys, Go pointers (`*Manifest`) as `Option`,
and fallible operations as `Except`.  Every definition is a direct translation
of the corresponding Go function unless its doc comment says otherwise.
-/

namespace GoTheme

/-! ## String helpers (models of the Go standard library functions used) -/

/-- Model of Go `unicode.IsSpace` restricted to the Latin-1 range that
`strings.TrimSpace` can see: space, tab, newline, vertical tab, form feed,
carriage return, NEL and NBSP. -/
def goIsSpace (c : Char) : Bool :=
  c = ' ' || c = '\t' || c = '\n' || c = '\x0b' || c = '\x0c' || c = '\r' ||
    c = '\x85' || c = '\xa0'

/-- Model of Go `strings.TrimSpace`: drop whitespace from both ends. -/
def trimSpace (s : String) : String :=
  String.mk (((s.data.dropWhile goIsSpace).reverse.dropWhile goIsSpace).reverse)

/-- Model of Go `strings.HasPrefix`. -/
def hasPrefixStr (s pre : String) : Bool :=
  pre.data.isPrefixOf s.data

/-- Model of Go `strings.TrimPrefix`: remove one leading copy of `pre`. -/
def goTrimPrefixStr (s pre : String) : String :=
  if hasPrefixStr s pre then String.mk (s.data.drop pre.data.length) else s

/-- Model of Go `strings.HasSuffix`. -/
def hasSuffixStr (s suf : String) : Bool :=
  suf.data.isSuffixOf s.data

/-- Model of Go `strings.TrimSuffix`: remove one trailing copy of `suf`. -/
def goTrimSuffixStr (s suf : String) : String :=
  if hasSuffixStr s suf then String.mk (s.data.take (s.data.length - suf.data.length)) else s

/-- Contiguous-substring test on character lists. -/
def listContains (needle : List Char) : List Char → Bool
  | [] => needle.isEmpty
  | c :: t => needle.isPrefixOf (c :: t) || listContains needle t

/-- Model of Go `strings.Contains`. -/
def containsStr (s sub : String) : Bool :=
  listContains sub.data s.data

/-- Model of Go `strings.Split` with a one-character separator. -/
def splitOnChar (sep : Char) : List Char → List (List Char)
  | [] => [[]]
  | c :: cs =>
    let r := splitOnChar sep cs
    if c = sep then [] :: r
    else
      match r with
      | h :: t => (c :: h) :: t
      | [] => [[c]]

/-- Digits of a decimal literal to a natural number. -/
def digitsToNat (ds : List Char) : Nat :=
  ds.foldl (fun n c => n * 10 + (c.toNat - 48)) 0

/-- Model of Go `fmt.Sscanf(part, "%d", &value)`: skip leading spaces, read an
optionally signed run of decimal digits; when no digit is found the scanned
variable keeps its zero value. -/
def scanInt (s : List Char) : Int :=
  let t := s.dropWhile goIsSpace
  if t.head? = some '-' then
    let ds := (t.drop 1).takeWhile Char.isDigit
    if ds = [] then 0 else -(digitsToNat ds : Int)
  else if t.head? = some '+' then
    let ds := (t.drop 1).takeWhile Char.isDigit
    if ds = [] then 0 else (digitsToNat ds : Int)
  else
    let ds := t.takeWhile Char.isDigit
    if ds = [] then 0 else (digitsToNat ds : Int)

/-! ## Go maps as association lists -/

/-- A Go `map[string]α` value: an association list whose keys are unique. -/
abbrev GoMap (α : Type) : Type := List (String × α)

/-- Go map read `m[k]` returning the `ok` flag as an `Option`. -/
def mapGet {α : Type} (m : GoMap α) (k : String) : Option α :=
  (m.find? (fun p => p.1 = k)).map (fun p => p.2)

/-- Go map assignment `m[k] = v` on a unique-key association list: replace the
binding of `k` if present, otherwise append it. -/
def mapPut {α : Type} : GoMap α → String → α → GoMap α
  | [], k, v => [(k, v)]
  | p :: rest, k, v => if p.1 = k then (k, v) :: rest else p :: mapPut rest k v

/-- The keys of a map. -/
def mapKeys {α : Type} (m : GoMap α) : List String := m.map (fun p => p.1)

/-- Unique-key invariant every Go map satisfies. -/
def mapWF {α : Type} (m : GoMap α) : Prop := (mapKeys m).Nodup

instance {α : Type} (m : GoMap α) : Decidable (mapWF m) := by
  unfold mapWF; infer_instance

/-- Go map read `m[k]` with the zero value for missing keys. -/
def mapGetD {α : Type} [Inhabited α] (m : GoMap α) (k : String) : α :=
  (mapGet m k).getD default

/-! ## Data model (manifest.go) -/

/-- `Assets` groups static assets and optional prefix/CDN root. -/
structure Assets where
  Prefix : String
  Files : GoMap String
  deriving DecidableEq, Repr, Inhabited

/-- `Variant` captures token/template/asset overrides for a named variant. -/
structure Variant where
  Description : String
  Tokens : GoMap String
  Templates : GoMap String
  Assets : Assets
  deriving DecidableEq, Repr

instance : Inhabited Variant := ⟨⟨"", [], [], ⟨"", []⟩⟩⟩

/-- `Manifest` defines the shape of a theme file. -/
structure Manifest where
  Name : String
  Version : String
  Description : String
  Tokens : GoMap String
  Fonts : GoMap String
  Assets : Assets
  Templates : GoMap String
  Variants : GoMap Variant
  deriving DecidableEq, Repr

instance : Inhabited Manifest := ⟨⟨"", "", "", [], [], ⟨"", []⟩, [], []⟩⟩

/-- Unique-key invariant for every map of a manifest, including its variants. -/
def manifestWF (m : Manifest) : Prop :=
  mapWF m.Tokens ∧ mapWF m.Fonts ∧ mapWF m.Assets.Files ∧ mapWF m.Templates ∧
    mapWF m.Variants ∧
    ∀ p ∈ m.Variants, mapWF p.2.Tokens ∧ mapWF p.2.Templates ∧ mapWF p.2.Assets.Files

instance (m : Manifest) : Decidable (manifestWF m) := by
  unfold manifestWF; infer_instance

/-! ## Errors -/

/-- The error values the registry and selector produce. -/
inductive Err where
  /-- `fmt.Errorf("manifest is nil")` -/
  | nilManifest : Err
  /-- `ValidationError{Issues: issues}` -/
  | validation : List String → Err
  /-- `fmt.Errorf("name is required")` -/
  | nameRequired : Err
  /-- `fmt.Errorf("%w: %s", ErrThemeNotFound, name)` -/
  | themeNotFound : String → Err
  /-- `fmt.Errorf("%w: %s@%s", ErrVersionNotFound, name, version)` -/
  | versionNotFound : String → String → Err
  /-- `fmt.Errorf("theme registry is nil")` -/
  | registryNil : Err
  /-- `fmt.Errorf("resolve theme: %w", err)` wrapping the cause -/
  | resolveTheme : Err → Err
  deriving DecidableEq, Repr

/-! ## Validation (manifest.go `Validate`) -/

/-- The issues the `validateMap` closure records for one map entry. -/
def entryIssues (label : String) (kv : String × String) : List String :=
  (if trimSpace kv.1 = "" then [label ++ " has empty key"] else []) ++
    (if trimSpace kv.2 = "" then [label ++ " entry \x27" ++ kv.1 ++ "\x27 is empty"] else [])

/-- The `validateMap(label, values)` closure of `Validate`: one pass over the
map, appending issues in order. -/
def validateMapIssues (label : String) (values : GoMap String) : List String :=
  values.foldl (fun acc kv => acc ++ entryIssues label kv) []

/-- The issues the variant loop of `Validate` records for one variant. -/
def variantIssues (p : String × Variant) : List String :=
  (if trimSpace p.1 = "" then ["variant name cannot be empty"] else []) ++
    validateMapIssues ("variants." ++ p.1 ++ ".tokens") p.2.Tokens ++
    validateMapIssues ("variants." ++ p.1 ++ ".templates") p.2.Templates ++
    validateMapIssues ("variants." ++ p.1 ++ ".assets.files") p.2.Assets.Files

/-- The full issue list `Validate` accumulates for a non-nil manifest. -/
def validateIssues (m : Manifest) : List String :=
  (if trimSpace m.Name = "" then ["name is required"] else []) ++
    (if trimSpace m.Version = "" then ["version is required"] else []) ++
    validateMapIssues "tokens" m.Tokens ++
    validateMapIssues "fonts" m.Fonts ++
    validateMapIssues "templates" m.Templates ++
    validateMapIssues "assets.files" m.Assets.Files ++
    m.Variants.foldl (fun acc p => acc ++ variantIssues p) []

/-- `(m *Manifest) Validate() error`: `none` means no error. -/
def Manifest.Validate (m : Option Manifest) : Option Err :=
  match m with
  | none => some .nilManifest
  | some m =>
    let issues := validateIssues m
    if issues.length > 0 then some (.validation issues) else none

/-! ## Token merging (manifest.go) -/

/-- `cloneStringMap`: build a fresh map holding the same entries. -/
def cloneStringMap (src : GoMap String) : GoMap String :=
  if src.length = 0 then []
  else src.foldl (fun dst kv => mapPut dst kv.1 kv.2) []

/-- `TokensForVariant` merges base tokens with the requested variant
(variant tokens take precedence). -/
def Manifest.TokensForVariant (m : Manifest) (variant : String) : GoMap String :=
  if variant = "" then cloneStringMap m.Tokens
  else
    match mapGet m.Variants variant with
    | none => cloneStringMap m.Tokens
    | some selected =>
      if selected.Tokens.length = 0 then cloneStringMap m.Tokens
      else selected.Tokens.foldl (fun merged kv => mapPut merged kv.1 kv.2)
        (cloneStringMap m.Tokens)

/-! ## Version comparison (registry.go) -/

/-- `parseVersionParts`: split on dots and scan each part as an integer
(an empty part is skipped, leaving the zero value). -/
def parseVersionParts (version : String) : List Int :=
  if version = "" then []
  else (splitOnChar '.' version.data).map (fun part => if part = [] then 0 else scanInt part)

/-- Tail of the `compareVersions` loop once the first list is exhausted:
each remaining segment of `b` is compared against the zero padding. -/
def cmpNil : List Int → Int
  | [] => 0
  | b :: bs => if 0 > b then 1 else if 0 < b then -1 else cmpNil bs

/-- The index loop of `compareVersions`: compare segments left to right,
treating a missing trailing segment as `0`, returning at the first
difference. -/
def cmpParts : List Int → List Int → Int
  | [], bs => cmpNil bs
  | a :: as, [] => if a > 0 then 1 else if a < 0 then -1 else cmpParts as []
  | a :: as, b :: bs => if a > b then 1 else if a < b then -1 else cmpParts as bs

/-- `compareVersions` performs a basic semantic version comparison. -/
def compareVersions (a b : String) : Int :=
  cmpParts (parseVersionParts (goTrimPrefixStr a "v")) (parseVersionParts (goTrimPrefixStr b "v"))

/-! ## Registry (registry.go) -/

/-- The `themes` table of a `MemoryRegistry`: name → version → manifest. -/
abbrev RegState : Type := GoMap (GoMap Manifest)

/-- The option record `queryOptions`. -/
structure queryOptions where
  version : String
  allowFallback : Bool
  deriving DecidableEq, Repr

/-- A `QueryOption` mutates the option record. -/
abbrev QueryOption : Type := queryOptions → queryOptions

/-- `WithVersion` requests a specific manifest version (trimmed). -/
def WithVersion (version : String) : QueryOption :=
  fun opts => { opts with version := trimSpace version }

/-- `WithoutFallback` disables fallback to the latest version. -/
def WithoutFallback : QueryOption :=
  fun opts => { opts with allowFallback := false }

/-- The variant record the `copyManifest` loop body builds for one variant. -/
def cloneVariant (v : Variant) : Variant :=
  { Description := v.Description
    Tokens := cloneStringMap v.Tokens
    Templates := cloneStringMap v.Templates
    Assets := { Prefix := v.Assets.Prefix, Files := cloneStringMap v.Assets.Files } }

/-- `copyManifest` builds a deep copy: every map is cloned entry by entry. -/
def copyManifest (src : Manifest) : Manifest :=
  { Name := src.Name
    Version := src.Version
    Description := src.Description
    Tokens := cloneStringMap src.Tokens
    Fonts := cloneStringMap src.Fonts
    Assets := { Prefix := src.Assets.Prefix, Files := cloneStringMap src.Assets.Files }
    Templates := cloneStringMap src.Templates
    Variants := src.Variants.foldl (fun acc p => mapPut acc p.1 (cloneVariant p.2)) [] }

/-- `copyManifest` on a `*Manifest`: `nil` copies to `nil`. -/
def copyManifestOpt (src : Option Manifest) : Option Manifest :=
  match src with
  | none => none
  | some m => some (copyManifest m)

/-- `latestVersion`: fold the registry's version set to the greatest version
string under `compareVersions`. -/
def latestVersion (versions : GoMap Manifest) : String :=
  versions.foldl (fun best p =>
    if best = "" ∨ compareVersions p.1 best > 0 then p.1 else best) ""

/-- `Register` validates and stores a deep copy, overwriting the same
name+version. -/
def Register (r : RegState) (manifest : Option Manifest) : Except Err RegState :=
  match manifest with
  | none => .error .nilManifest
  | some m =>
    match Manifest.Validate (some m) with
    | some e => .error e
    | none =>
      let versions := (mapGet r m.Name).getD []
      .ok (mapPut r m.Name (mapPut versions m.Version (copyManifest m)))

/-- The option-applying loop of `Get`: start from
`queryOptions{allowFallback: true}` and apply each option in order. -/
def applySettings (opts : List QueryOption) : queryOptions :=
  opts.foldl (fun s o => o s) ⟨"", true⟩

/-- `Get` fetches a manifest by name, optionally constrained to a version with
fallback to the latest. -/
def Get (r : RegState) (name : String) (opts : List QueryOption) :
    Except Err (Option Manifest) :=
  if trimSpace name = "" then .error .nameRequired
  else
    let settings := applySettings opts
    match mapGet r name with
    | none => .error (.themeNotFound name)
    | some versions =>
      if versions.length = 0 then .error (.themeNotFound name)
      else
        let resolveLatest : Except Err (Option Manifest) :=
          let version := latestVersion versions
          if version = "" then .error (.themeNotFound name)
          else .ok (copyManifestOpt (mapGet versions version))
        if settings.version ≠ "" then
          match mapGet versions settings.version with
          | some m => .ok (some (copyManifest m))
          | none =>
            if ¬ settings.allowFallback then
              .error (.versionNotFound name settings.version)
            else resolveLatest
        else resolveLatest

/-! ## Selector and Selection (selector.go) -/

/-- `Selector` wraps a registry (`nil` modelled as `none`) with defaults. -/
structure Selector where
  Registry : Option RegState
  DefaultTheme : String
  DefaultVariant : String
  deriving Repr

/-- `Selection` holds the chosen theme/variant and the fetched manifest. -/
structure Selection where
  Theme : String
  Variant : String
  Manifest : Option Manifest
  deriving DecidableEq, Repr

/-- `Selector.Select` resolves a theme name/variant with fallback to
defaults.  The registry lookup `s.Registry.Theme` is `Get` on the
`MemoryRegistry`, the sole implementation in the repository. -/
def Selector.Select (s : Selector) (themeName0 variant0 : String)
    (opts : List QueryOption) : Except Err Selection :=
  let themeName := trimSpace themeName0
  let themeName := if themeName = "" then s.DefaultTheme else themeName
  match s.Registry with
  | none => .error .registryNil
  | some reg =>
    let first := Get reg themeName opts
    let result :=
      match first with
      | .error _ =>
        if s.DefaultTheme ≠ "" ∧ themeName ≠ s.DefaultTheme then
          Get reg s.DefaultTheme opts
        else first
      | .ok _ => first
    match result with
    | .error e => .error (.resolveTheme e)
    | .ok manifest =>
      let variant := if variant0 = "" then s.DefaultVariant else variant0
      .ok { Theme := themeName, Variant := variant, Manifest := manifest }

/-- `manifestTemplate`: the raw template value for a key, `""` when absent. -/
def manifestTemplate (manifest : Option Manifest) (variant key : String) : String :=
  match manifest with
  | none => ""
  | some m =>
    if variant = "" then mapGetD m.Templates key
    else
      match mapGet m.Variants variant with
      | some v => if mapGetD v.Templates key ≠ "" then mapGetD v.Templates key else ""
      | none => ""

/-- `resolveTemplate`: variant override, then base, then fallback. -/
def resolveTemplate (manifest : Option Manifest) (variant key fallback : String) : String :=
  match manifest with
  | none => fallback
  | some m =>
    let key := trimSpace key
    if key = "" then fallback
    else
      if manifestTemplate (some m) variant key ≠ "" then manifestTemplate (some m) variant key
      else if manifestTemplate (some m) "" key ≠ "" then manifestTemplate (some m) "" key
      else fallback

/-- `Selection.Template` resolves a template key. -/
def Selection.Template (s : Selection) (key fallback : String) : String :=
  resolveTemplate s.Manifest s.Variant key fallback

/-- `activePrefix`: the variant override when non-blank, else the base. -/
def activePrefix (base override : String) : String :=
  if trimSpace override ≠ "" then override else base

/-- Element-stack form of Go `path.Clean`, modelled from the Go standard
library documentation: drop empty and `.` elements, let `..` cancel the
preceding element (or survive at the front of a relative path), keep a
leading `/` for rooted paths, and return `.` for an empty result. -/
def pathClean (p : String) : String :=
  if p = "" then "."
  else
    let rooted := hasPrefixStr p "/"
    let comps := (splitOnChar '/' p.data).map String.mk
    let stack := comps.foldl (fun acc c =>
      if c = "" ∨ c = "." then acc
      else if c = ".." then
        match acc with
        | [] => if rooted then [] else [".."]
        | x :: rest => if x = ".." then c :: x :: rest else rest
      else c :: acc) []
    let body := String.intercalate "/" stack.reverse
    let out := if rooted then "/" ++ body else body
    if out = "" then "." else out

/-- Go `path.Join(a, b)`: join the non-empty elements with a slash and clean
the result; the result is empty when both elements are empty. -/
def pathJoin (a b : String) : String :=
  if a = "" ∧ b = "" then ""
  else if a = "" then pathClean b
  else if b = "" then pathClean a
  else pathClean (a ++ "/" ++ b)

/-- `joinPath`: URL-aware prefix joining. -/
def joinPath (pfx p : String) : String :=
  let p := goTrimPrefixStr p "/"
  if pfx = "" then p
  else if containsStr pfx "://" then
    goTrimSuffixStr pfx "/" ++ "/" ++ goTrimPrefixStr p "/"
  else pathJoin pfx p

/-- `resolveAsset`: asset path including prefix, variant overrides first. -/
def resolveAsset (manifest : Option Manifest) (variant key : String) : Option String :=
  match manifest with
  | none => none
  | some m =>
    let key := trimSpace key
    if key = "" then none
    else
      let variantAssets := (mapGetD m.Variants variant).Assets
      let pfx := goTrimSuffixStr (activePrefix m.Assets.Prefix variantAssets.Prefix) "/"
      match mapGet variantAssets.Files key with
      | some pathOverride =>
        if pathOverride ≠ "" then some (joinPath pfx pathOverride)
        else
          match mapGet m.Assets.Files key with
          | some basePath => if basePath ≠ "" then some (joinPath pfx basePath) else none
          | none => none
      | none =>
        match mapGet m.Assets.Files key with
        | some basePath => if basePath ≠ "" then some (joinPath pfx basePath) else none
        | none => none

/-- `Selection.Asset` returns a themed asset path, `none` for not found. -/
def Selection.Asset (s : Selection) (key : String) : Option String :=
  resolveAsset s.Manifest s.Variant key

/-! ## Resolved snapshot -/

/-- Modelled from the spec: the `ResolvedSelection` structure returned by
`Selection.Snapshot` is not among the sources (only its unit tests, an
external compile test and the README describe it). -/
structure ResolvedSelection where
  Theme : String
  Variant : String
  Tokens : GoMap String
  Templates : GoMap String
  Assets : GoMap String
  AssetPrefix : String
  deriving DecidableEq, Repr

/-- Modelled from the spec: the `Selection.Snapshot` method is missing from
the sources; reconstructed from §4.3 of the spec, the README
("Assets: variant file override key, else base key, preserving
`Selection.Asset` prefix behavior") and the unit tests
`TestSelectionSnapshotResolution` / `TestSelectionSnapshotPrefixFallback` /
`TestResolvedSelectionAPIExternalCompile`, which pin that base-map asset
values are joined with the trimmed base prefix, variant-override values with
the trimmed active prefix, and that `AssetPrefix` is the trimmed active
prefix. -/
def Selection.Snapshot (s : Selection) : ResolvedSelection :=
  match s.Manifest with
  | none =>
    { Theme := s.Theme, Variant := s.Variant, Tokens := [], Templates := [],
      Assets := [], AssetPrefix := "" }
  | some m =>
    let variant := mapGetD m.Variants s.Variant
    let basePfx := goTrimSuffixStr m.Assets.Prefix "/"
    let pfx := goTrimSuffixStr (activePrefix m.Assets.Prefix variant.Assets.Prefix) "/"
    let tokens := m.TokensForVariant s.Variant
    let templates := variant.Templates.foldl (fun acc kv => mapPut acc kv.1 kv.2)
      (cloneStringMap m.Templates)
    let baseAssets := m.Assets.Files.map (fun kv => (kv.1, joinPath basePfx kv.2))
    let assets := variant.Assets.Files.foldl
      (fun acc kv => mapPut acc kv.1 (joinPath pfx kv.2)) baseAssets
    { Theme := s.Theme, Variant := s.Variant, Tokens := tokens,
      Templates := templates, Assets := assets, AssetPrefix := pfx }

/-! ## Association-list lemmas -/

/-- First-of-two option combinator used to state lookup precedence. -/
def orO {α : Type} (a b : Option α) : Option α :=
  match a with
  | some x => some x
  | none => b

@[simp] theorem orO_some {α : Type} (x : α) (b : Option α) : orO (some x) b = some x := rfl

@[simp] theorem orO_none {α : Type} (b : Option α) : orO none b = b := rfl

theorem mapGet_nil {α : Type} (k : String) : mapGet ([] : GoMap α) k = none := rfl

theorem mapGet_cons {α : Type} (p : String × α) (m : GoMap α) (k : String) :
    mapGet (p :: m) k = if p.1 = k then some p.2 else mapGet m k := by
  by_cases h : p.1 = k <;> simp [mapGet, List.find?, h]

theorem mapGet_append {α : Type} (l1 l2 : GoMap α) (k : String) :
    mapGet (l1 ++ l2) k = orO (mapGet l1 k) (mapGet l2 k) := by
  induction l1 with
  | nil => simp [mapGet_nil]
  | cons p t ih =>
    rw [List.cons_append, mapGet_cons, mapGet_cons]
    by_cases h : p.1 = k <;> simp [h, ih]

theorem mapWF_cons {α : Type} {p : String × α} {t : GoMap α} (h : mapWF (p :: t)) :
    p.1 ∉ mapKeys t ∧ mapWF t := by
  have h' : (p.1 :: mapKeys t).Nodup := h
  exact List.nodup_cons.mp h'

theorem mem_of_mapGet_eq_some {α : Type} {m : GoMap α} {k : String} {v : α}
    (h : mapGet m k = some v) : (k, v) ∈ m := by
  induction m with
  | nil => simp [mapGet_nil] at h
  | cons p t ih =>
    obtain ⟨k1, v1⟩ := p
    rw [mapGet_cons] at h
    by_cases hk : k1 = k
    · subst hk
      rw [if_pos rfl] at h
      obtain rfl := Option.some.injEq _ _ ▸ h
      exact List.mem_cons_self _ _
    · rw [if_neg hk] at h
      exact List.mem_cons_of_mem _ (ih h)

theorem mapGet_isSome_of_mem {α : Type} {m : GoMap α} {k : String} {v : α}
    (h : (k, v) ∈ m) : ∃ w, mapGet m k = some w := by
  induction m with
  | nil => simp at h
  | cons p t ih =>
    rcases List.mem_cons.mp h with h1 | h1
    · rw [mapGet_cons, ← h1]
      simp
    · by_cases hk : p.1 = k
      · rw [mapGet_cons]
        simp [hk]
      · rw [mapGet_cons]
        simpa [hk] using ih h1

theorem mapGet_eq_none_of_not_mem {α : Type} {m : GoMap α} {k : String}
    (h : k ∉ mapKeys m) : mapGet m k = none := by
  cases hg : mapGet m k with
  | none => rfl
  | some w =>
    exact absurd (List.mem_map_of_mem Prod.fst (mem_of_mapGet_eq_some hg)) h

theorem mapPut_get {α : Type} (m : GoMap α) (k1 k : String) (v : α) :
    mapGet (mapPut m k1 v) k = if k1 = k then some v else mapGet m k := by
  induction m with
  | nil => simp [mapPut, mapGet_cons, mapGet_nil]
  | cons p t ih =>
    rw [mapPut]
    by_cases h1 : p.1 = k1
    · simp only [h1, if_pos rfl, mapGet_cons]
      by_cases hk : k1 = k <;> simp [hk, h1, mapGet_cons]
    · rw [if_neg h1, mapGet_cons, mapGet_cons, ih]
      by_cases hk : k1 = k
      · subst hk; simp [h1]
      · simp [hk]

theorem mapPut_of_not_mem {α : Type} (m : GoMap α) (k : String) (v : α)
    (h : k ∉ mapKeys m) : mapPut m k v = m ++ [(k, v)] := by
  induction m with
  | nil => simp [mapPut]
  | cons p t ih =>
    have hne : p.1 ≠ k := by
      intro e
      exact h (by rw [← e]; exact List.mem_cons_self _ _)
    have ht : k ∉ mapKeys t := fun hm => h (List.mem_cons_of_mem _ hm)
    rw [mapPut, if_neg hne, List.cons_append, ih ht]

/-- Folding `mapPut` of transformed entries over a unique-key list: a lookup
sees the transformed entry when the key is in the list, else the accumulator. -/
theorem mapGet_foldl_put {α β : Type} (f : String → β → α) (vt : GoMap β)
    (base : GoMap α) (k : String) (h : mapWF vt) :
    mapGet (vt.foldl (fun acc kv => mapPut acc kv.1 (f kv.1 kv.2)) base) k
      = orO ((mapGet vt k).map (f k)) (mapGet base k) := by
  induction vt generalizing base with
  | nil => simp [mapGet_nil]
  | cons p t ih =>
    obtain ⟨hnm, hwf⟩ := mapWF_cons h
    rw [List.foldl_cons, ih _ hwf, mapPut_get, mapGet_cons]
    by_cases hk : p.1 = k
    · subst hk
      rw [mapGet_eq_none_of_not_mem hnm]
      simp
    · simp [hk]

theorem foldl_put_eq_append {α β : Type} (f : String → β → α) (l : GoMap β)
    (acc : GoMap α) (h : mapWF l) (hd : ∀ x ∈ mapKeys acc, x ∉ mapKeys l) :
    l.foldl (fun a kv => mapPut a kv.1 (f kv.1 kv.2)) acc
      = acc ++ l.map (fun kv => (kv.1, f kv.1 kv.2)) := by
  induction l generalizing acc with
  | nil => simp
  | cons p t ih =>
    obtain ⟨hnm, hwf⟩ := mapWF_cons h
    have hacc : p.1 ∉ mapKeys acc := fun hm => by
      have := hd p.1 hm
      exact this (by rw [mapKeys]; exact List.mem_cons_self _ _)
    have hd' : ∀ x ∈ mapKeys (acc ++ [(p.1, f p.1 p.2)]), x ∉ mapKeys t := by
      intro x hx
      have hx' : x ∈ mapKeys acc ∨ x = p.1 := by
        simpa [mapKeys] using hx
      rcases hx' with hx' | hx'
      · intro hmem
        exact hd x hx' (by rw [mapKeys]; exact List.mem_cons_of_mem _ hmem)
      · rw [hx']; exact hnm
    rw [List.foldl_cons, mapPut_of_not_mem _ _ _ hacc, ih _ hwf hd']
    simp

theorem cloneStringMap_eq (src : GoMap String) (h : mapWF src) :
    cloneStringMap src = src := by
  rw [cloneStringMap]
  by_cases hz : src.length = 0
  · simp [hz, List.length_eq_zero.mp hz]
  · rw [if_neg hz]
    have hmain := foldl_put_eq_append (fun _ v => v) src [] h (by simp [mapKeys])
    simpa using hmain

theorem mapGet_map_value {α β : Type} (g : String → α → β) (m : GoMap α) (k : String) :
    mapGet (m.map (fun kv => (kv.1, g kv.1 kv.2))) k = (mapGet m k).map (g k) := by
  induction m with
  | nil => simp [mapGet_nil]
  | cons p t ih =>
    rw [List.map_cons, mapGet_cons, mapGet_cons]
    by_cases hk : p.1 = k
    · simp [hk]
    · simp [hk, ih]

theorem cloneVariant_eq (v : Variant) (h1 : mapWF v.Tokens) (h2 : mapWF v.Templates)
    (h3 : mapWF v.Assets.Files) : cloneVariant v = v := by
  cases v with
  | mk d t tp a =>
    cases a
    simp only [cloneVariant]
    rw [cloneStringMap_eq _ h1, cloneStringMap_eq _ h2, cloneStringMap_eq _ h3]

theorem copyManifest_eq (m : Manifest) (h : manifestWF m) : copyManifest m = m := by
  obtain ⟨h1, h2, h3, h4, h5, h6⟩ := h
  have hv : m.Variants.foldl (fun acc p => mapPut acc p.1 (cloneVariant p.2)) []
      = m.Variants := by
    have hmain := foldl_put_eq_append (fun _ v => cloneVariant v) m.Variants [] h5
      (by simp [mapKeys])
    rw [hmain, List.nil_append]
    have hpt : ∀ p ∈ m.Variants, (p.1, cloneVariant p.2) = p := by
      intro p hp
      obtain ⟨hv1, hv2, hv3⟩ := h6 p hp
      rw [cloneVariant_eq _ hv1 hv2 hv3]
    rw [List.map_congr_left hpt]
    simp
  cases m with
  | mk nm ver d tk f a tp vs =>
    cases a
    simp only [copyManifest] at *
    rw [cloneStringMap_eq _ h1, cloneStringMap_eq _ h2, cloneStringMap_eq _ h3,
      cloneStringMap_eq _ h4, hv]

/-! ## Version-comparison lemmas -/

theorem cmpParts_self : ∀ as : List Int, cmpParts as as = 0 := by
  intro as
  induction as with
  | nil => rfl
  | cons a t ih => simp [cmpParts, ih]

theorem cmpParts_nil_right : ∀ as : List Int, cmpParts as [] = -(cmpNil as) := by
  intro as
  induction as with
  | nil => rfl
  | cons a t ih =>
    rw [cmpParts, cmpNil, ih]
    rcases lt_trichotomy a 0 with h | h | h
    · rw [if_neg (by omega : ¬ a > 0), if_pos h, if_pos (by omega : (0:Int) > a)]
    · rw [if_neg (by omega : ¬ a > 0), if_neg (by omega : ¬ a < 0),
        if_neg (by omega : ¬ (0:Int) > a), if_neg (by omega : ¬ (0:Int) < a)]
    · rw [if_pos h, if_neg (by omega : ¬ (0:Int) > a), if_pos (by omega : (0:Int) < a)]
      omega

theorem cmpParts_antisym : ∀ as bs : List Int, cmpParts bs as = -(cmpParts as bs) := by
  intro as
  induction as with
  | nil =>
    intro bs
    rw [cmpParts_nil_right]
    rfl
  | cons a t ih =>
    intro bs
    cases bs with
    | nil =>
      rw [cmpParts_nil_right, neg_neg]
      rfl
    | cons b u =>
      rw [cmpParts, cmpParts, ih u]
      rcases lt_trichotomy a b with h | h | h
      · rw [if_neg (by omega : ¬ a > b), if_pos h, if_pos (by omega : b > a)]
        omega
      · rw [if_neg (by omega : ¬ a > b), if_neg (by omega : ¬ a < b),
          if_neg (by omega : ¬ b > a), if_neg (by omega : ¬ b < a)]
      · rw [if_pos h, if_neg (by omega : ¬ b > a), if_pos (by omega : b < a)]

theorem cmpParts_le_trans_fuel : ∀ (n : Nat) (xs ys zs : List Int),
    xs.length + ys.length + zs.length ≤ n →
    cmpParts xs ys ≤ 0 → cmpParts ys zs ≤ 0 → cmpParts xs zs ≤ 0 := by
  intro n
  induction n with
  | zero =>
    intro xs ys zs hlen h1 h2
    have hx : xs = [] := List.length_eq_zero.mp (by omega)
    have hz : zs = [] := List.length_eq_zero.mp (by omega)
    rw [hx, hz]
    exact Int.le_refl 0
  | succ n ih =>
    intro xs ys zs hlen h1 h2
    match xs, ys, zs with
    | [], [], zs => exact h2
    | [], y :: ys, [] => exact Int.le_refl 0
    | [], y :: ys, z :: zs =>
      rw [show cmpParts [] (y :: ys) = cmpNil (y :: ys) from rfl, cmpNil] at h1
      rw [cmpParts] at h2
      rw [show cmpParts [] (z :: zs) = cmpNil (z :: zs) from rfl, cmpNil]
      by_cases hy : (0:Int) > y
      · rw [if_pos hy] at h1; omega
      · rw [if_neg hy] at h1
        by_cases hyz : y > z
        · rw [if_pos hyz] at h2; omega
        · rw [if_neg hyz] at h2
          rw [if_neg (by omega : ¬ (0:Int) > z)]
          by_cases hz : (0:Int) < z
          · rw [if_pos hz]; omega
          · rw [if_neg hz]
            rw [if_neg (by omega : ¬ (0:Int) < y)] at h1
            rw [if_neg (by omega : ¬ y < z)] at h2
            exact ih [] ys zs
              (by simp only [List.length_cons, List.length_nil] at hlen ⊢; omega) h1 h2
    | x :: xs, [], [] => exact h1
    | x :: xs, [], z :: zs =>
      rw [cmpParts] at h1
      rw [show cmpParts [] (z :: zs) = cmpNil (z :: zs) from rfl, cmpNil] at h2
      rw [cmpParts]
      by_cases hx : x > 0
      · rw [if_pos hx] at h1; omega
      · rw [if_neg hx] at h1
        by_cases hz : (0:Int) > z
        · rw [if_pos hz] at h2; omega
        · rw [if_neg hz] at h2
          rw [if_neg (by omega : ¬ x > z)]
          by_cases hxz : x < z
          · rw [if_pos hxz]; omega
          · rw [if_neg hxz]
            rw [if_neg (by omega : ¬ x < 0)] at h1
            rw [if_neg (by omega : ¬ (0:Int) < z)] at h2
            exact ih xs [] zs
              (by simp only [List.length_cons, List.length_nil] at hlen ⊢; omega) h1 h2
    | x :: xs, y :: ys, [] =>
      rw [cmpParts] at h1
      rw [cmpParts] at h2 ⊢
      by_cases hxy : x > y
      · rw [if_pos hxy] at h1; omega
      · rw [if_neg hxy] at h1
        by_cases hy : y > 0
        · rw [if_pos hy] at h2; omega
        · rw [if_neg hy] at h2
          rw [if_neg (by omega : ¬ x > 0)]
          by_cases hx : x < 0
          · rw [if_pos hx]; omega
          · rw [if_neg hx]
            rw [if_neg (by omega : ¬ x < y)] at h1
            rw [if_neg (by omega : ¬ y < 0)] at h2
            exact ih xs ys []
              (by simp only [List.length_cons, List.length_nil] at hlen ⊢; omega) h1 h2
    | x :: xs, y :: ys, z :: zs =>
      rw [cmpParts] at h1 h2 ⊢
      by_cases hxy : x > y
      · rw [if_pos hxy] at h1; omega
      · rw [if_neg hxy] at h1
        by_cases hyz : y > z
        · rw [if_pos hyz] at h2; omega
        · rw [if_neg hyz] at h2
          rw [if_neg (by omega : ¬ x > z)]
          by_cases hxz : x < z
          · rw [if_pos hxz]; omega
          · rw [if_neg hxz]
            rw [if_neg (by omega : ¬ x < y)] at h1
            rw [if_neg (by omega : ¬ y < z)] at h2
            exact ih xs ys zs
              (by simp only [List.length_cons, List.length_nil] at hlen ⊢; omega) h1 h2

theorem cmpParts_le_trans {xs ys zs : List Int}
    (h1 : cmpParts xs ys ≤ 0) (h2 : cmpParts ys zs ≤ 0) : cmpParts xs zs ≤ 0 :=
  cmpParts_le_trans_fuel (xs.length + ys.length + zs.length) xs ys zs le_rfl h1 h2

/-- Appending zero segments never changes the comparison: missing trailing
segments are treated as `0`. -/
theorem cmpParts_append_zeros : ∀ (as : List Int) (n : Nat),
    cmpParts as (as ++ List.replicate n 0) = 0 := by
  intro as
  induction as with
  | nil =>
    intro n
    induction n with
    | zero => rfl
    | succ n ihn =>
      simpa [cmpParts, List.replicate_succ, cmpNil] using ihn
  | cons a t ih =>
    intro n
    simp [cmpParts, ih n]

theorem compareVersions_le_trans {x y z : String}
    (h1 : compareVersions x y ≤ 0) (h2 : compareVersions y z ≤ 0) :
    compareVersions x z ≤ 0 := by
  rw [compareVersions] at *
  exact cmpParts_le_trans h1 h2

theorem compareVersions_antisym (x y : String) :
    compareVersions y x = -(compareVersions x y) := by
  rw [compareVersions, compareVersions]
  exact cmpParts_antisym _ _

theorem compareVersions_self (x : String) : compareVersions x x = 0 := by
  rw [compareVersions]
  exact cmpParts_self _

/-! ## `latestVersion` picks a maximal version -/

theorem latestVersion_aux (l : List (String × Manifest)) :
    ∀ b : String, b ≠ "" → (∀ q ∈ l, q.1 ≠ "") →
    (l.foldl (fun best p =>
        if best = "" ∨ compareVersions p.1 best > 0 then p.1 else best) b) ≠ "" ∧
    ((l.foldl (fun best p =>
        if best = "" ∨ compareVersions p.1 best > 0 then p.1 else best) b) = b ∨
      (l.foldl (fun best p =>
        if best = "" ∨ compareVersions p.1 best > 0 then p.1 else best) b) ∈ mapKeys l) ∧
    compareVersions b (l.foldl (fun best p =>
        if best = "" ∨ compareVersions p.1 best > 0 then p.1 else best) b) ≤ 0 ∧
    ∀ q ∈ l, compareVersions q.1 (l.foldl (fun best p =>
        if best = "" ∨ compareVersions p.1 best > 0 then p.1 else best) b) ≤ 0 := by
  induction l with
  | nil =>
    intro b hb _
    rw [List.foldl_nil]
    refine ⟨hb, Or.inl rfl, ?_, by simp⟩
    rw [compareVersions_self]
  | cons p t ih =>
    intro b hb hl
    have hp : p.1 ≠ "" := hl p (List.mem_cons_self _ _)
    have hlt : ∀ q ∈ t, q.1 ≠ "" := fun q hq => hl q (List.mem_cons_of_mem _ hq)
    rw [List.foldl_cons]
    by_cases hc : b = "" ∨ compareVersions p.1 b > 0
    · have hcmp : compareVersions p.1 b > 0 := by
        rcases hc with hc | hc
        · exact absurd hc hb
        · exact hc
      rw [if_pos hc]
      obtain ⟨hr1, hr2, hr3, hr4⟩ := ih p.1 hp hlt
      refine ⟨hr1, ?_, ?_, ?_⟩
      · rcases hr2 with h | h
        · exact Or.inr (by rw [h, mapKeys]; exact List.mem_cons_self _ _)
        · exact Or.inr (by rw [mapKeys]; exact List.mem_cons_of_mem _ h)
      · have hbp : compareVersions b p.1 ≤ 0 := by
          rw [compareVersions_antisym]
          omega
        exact compareVersions_le_trans hbp hr3
      · intro q hq
        rcases List.mem_cons.mp hq with h | h
        · rw [h]; exact hr3
        · exact hr4 q h
    · rw [if_neg hc]
      push_neg at hc
      obtain ⟨hr1, hr2, hr3, hr4⟩ := ih b hb hlt
      refine ⟨hr1, ?_, hr3, ?_⟩
      · rcases hr2 with h | h
        · exact Or.inl h
        · exact Or.inr (by rw [mapKeys]; exact List.mem_cons_of_mem _ h)
      · intro q hq
        rcases List.mem_cons.mp hq with h | h
        · rw [h]
          exact compareVersions_le_trans hc.2 hr3
        · exact hr4 q h

/-- For a non-empty version set with non-empty version strings,
`latestVersion` returns a stored key that is maximal under
`compareVersions`. -/
theorem latestVersion_spec (versions : GoMap Manifest) (hne : versions ≠ [])
    (hkeys : ∀ p ∈ versions, p.1 ≠ "") :
    latestVersion versions ≠ "" ∧ latestVersion versions ∈ mapKeys versions ∧
      ∀ p ∈ versions, compareVersions p.1 (latestVersion versions) ≤ 0 := by
  match versions, hne with
  | p :: t, _ =>
    have hp : p.1 ≠ "" := hkeys p (List.mem_cons_self _ _)
    have hlt : ∀ q ∈ t, q.1 ≠ "" := fun q hq => hkeys q (List.mem_cons_of_mem _ hq)
    have hstep : latestVersion (p :: t) = t.foldl (fun best q =>
        if best = "" ∨ compareVersions q.1 best > 0 then q.1 else best) p.1 := by
      rw [latestVersion, List.foldl_cons, if_pos (Or.inl rfl)]
    obtain ⟨hr1, hr2, hr3, hr4⟩ := latestVersion_aux t p.1 hp hlt
    rw [hstep]
    refine ⟨hr1, ?_, ?_⟩
    · rcases hr2 with h | h
      · rw [h, mapKeys]; exact List.mem_cons_self _ _
      · rw [mapKeys]; exact List.mem_cons_of_mem _ h
    · intro q hq
      rcases List.mem_cons.mp hq with h | h
      · rw [h]; exact hr3
      · exact hr4 q h

/-! ## Claim C6: Validate aggregates all issues -/

/-- Manifest with empty name, empty version and one empty token key. -/
def mC6 : Manifest :=
  { Name := "", Version := "", Description := "", Tokens := [("", "primary")],
    Fonts := [], Assets := ⟨"", []⟩, Templates := [], Variants := [] }

/-- C6: `Validate` is single-pass and non-short-circuiting: on a manifest with
empty `Name`, empty `Version` and one empty token key it returns one
aggregated error carrying three distinct issues; in general it errors exactly
when at least one issue was collected, and a nil manifest is a distinct
immediate non-aggregated failure. -/
theorem C6_validate_aggregates :
    (Manifest.Validate (some mC6) =
        some (.validation ["name is required", "version is required", "tokens has empty key"]) ∧
      (["name is required", "version is required",
        "tokens has empty key"] : List String).length ≥ 3 ∧
      (["name is required", "version is required",
        "tokens has empty key"] : List String).Nodup) ∧
    (∀ m : Manifest, Manifest.Validate (some m) = none ↔ validateIssues m = []) ∧
    (∀ m : Manifest, validateIssues m ≠ [] →
      Manifest.Validate (some m) = some (.validation (validateIssues m))) ∧
    Manifest.Validate none = some .nilManifest ∧
    (∀ issues : List String, Err.nilManifest ≠ Err.validation issues) := by
  refine ⟨by decide, ?_, ?_, rfl, fun issues h => by cases h⟩
  · intro m
    rw [Manifest.Validate]
    by_cases h : (validateIssues m).length > 0
    · rw [if_pos h]
      constructor
      · intro hc; cases hc
      · intro hc
        rw [hc] at h
        simp at h
    · rw [if_neg h]
      simp only [Nat.not_lt, Nat.le_zero] at h
      simp [List.length_eq_zero.mp h]
  · intro m hm
    rw [Manifest.Validate]
    rw [if_pos (by
      cases hi : validateIssues m with
      | nil => exact absurd hi hm
      | cons a t => simp [hi])]

/-- Closed witness for C6: the general clauses applied to `mC6`. -/
theorem C6_validate_aggregates_witness :
    Manifest.Validate (some mC6) = some (.validation (validateIssues mC6)) :=
  C6_validate_aggregates.2.2.1 mC6 (by decide)

/-! ## Claim C7: compareVersions -/

/-- C7: `compareVersions` strips a leading `v`, splits on dots, compares
segments left-to-right as integers; missing trailing segments count as `0`
(appending zero segments never changes a comparison) and a segment with no
leading integer scans as `0`.  The three concrete orderings of the spec
hold. -/
theorem C7_compareVersions_spec :
    compareVersions "1.1.0" "1.0.0" > 0 ∧
    compareVersions "v2.0.0" "1.9.9" > 0 ∧
    compareVersions "1.0" "1.0.0" = 0 ∧
    (∀ (ap : List Int) (n : Nat), cmpParts ap (ap ++ List.replicate n 0) = 0 ∧
      cmpParts (ap ++ List.replicate n 0) ap = 0) ∧
    (∀ part : List Char,
      (∀ c, (part.dropWhile goIsSpace).head? = some c →
        c.isDigit = false ∧ c ≠ '-' ∧ c ≠ '+') →
      scanInt part = 0) := by
  refine ⟨by decide, by decide, by decide, ?_, ?_⟩
  · intro ap n
    refine ⟨cmpParts_append_zeros ap n, ?_⟩
    rw [cmpParts_antisym, cmpParts_append_zeros ap n]
    rfl
  · intro part h
    cases ht : part.dropWhile goIsSpace with
    | nil => simp [scanInt, ht]
    | cons c rest =>
      obtain ⟨hd, hminus, hplus⟩ := h c (by rw [ht]; rfl)
      simp [scanInt, ht, hminus, hplus, List.takeWhile_cons, hd]

/-- Closed witness for C7: a fully non-numeric segment scans as `0`. -/
theorem C7_compareVersions_spec_witness : scanInt "rc".data = 0 :=
  C7_compareVersions_spec.2.2.2.2 "rc".data (by
    intro c hc
    have h0 : ("rc".data.dropWhile goIsSpace).head? = some 'r' := by decide
    rw [h0] at hc
    injection hc with hh
    rw [← hh]
    decide)

/-! ## Claim C1: TokensForVariant -/

/-- The variant of the C1 counterexample, stored under the empty name. -/
def vC1 : Variant :=
  { Description := "", Tokens := [("a", "1")], Templates := [], Assets := ⟨"", []⟩ }

/-- Manifest whose `Variants` map holds a non-empty token set under `""`. -/
def mC1 : Manifest :=
  { Name := "t", Version := "1", Description := "", Tokens := [], Fonts := [],
    Assets := ⟨"", []⟩, Templates := [], Variants := [("", vC1)] }

/-- C1 counterexample: for `V = ""` the variant exists in `m.Variants` and its
token map is non-empty, yet `TokensForVariant` ignores it and returns the base
copy, against the claim that the variant value wins on every shared key. -/
theorem C1_counterexample :
    mapGet mC1.Variants "" = some vC1 ∧ vC1.Tokens.length ≠ 0 ∧
    mapGet vC1.Tokens "a" = some "1" ∧
    mapGet (mC1.TokensForVariant "") "a" = none := by decide

/-- C1 (amended): for every manifest and NON-EMPTY variant name `V`, if `V`
exists and its token map is non-empty the result equals base tokens overlaid
with the variant tokens (variant wins); otherwise — and always when `V` is
empty — the result equals the base tokens.  (Freshness is the value-level
reading: the result is rebuilt by `cloneStringMap`.) -/
theorem C1_tokensForVariant_amended (m : Manifest) (V : String) (hV : V ≠ "")
    (hbase : mapWF m.Tokens) :
    (∀ vt, mapGet m.Variants V = some vt → vt.Tokens ≠ [] → mapWF vt.Tokens →
      ∀ k, mapGet (m.TokensForVariant V) k = orO (mapGet vt.Tokens k) (mapGet m.Tokens k)) ∧
    ((mapGet m.Variants V = none ∨ (∃ vt, mapGet m.Variants V = some vt ∧ vt.Tokens = [])) →
      m.TokensForVariant V = m.Tokens) := by
  constructor
  · intro vt hvt hne hwf k
    rw [Manifest.TokensForVariant, if_neg hV, hvt]
    dsimp only
    have hlen : ¬ vt.Tokens.length = 0 := by
      intro h
      exact hne (List.length_eq_zero.mp h)
    rw [if_neg hlen, cloneStringMap_eq _ hbase]
    have hmain := mapGet_foldl_put (fun _ v => v) vt.Tokens m.Tokens k hwf
    simp only at hmain
    rw [hmain]
    cases mapGet vt.Tokens k <;> simp [orO]
  · intro hcase
    rcases hcase with hnone | ⟨vt, hvt, htok⟩
    · rw [Manifest.TokensForVariant, if_neg hV, hnone]
      exact cloneStringMap_eq _ hbase
    · rw [Manifest.TokensForVariant, if_neg hV, hvt]
      dsimp only
      simp only [htok, List.length_nil, if_pos rfl]
      exact cloneStringMap_eq _ hbase

/-- The `dark` variant used by the C1 witness. -/
def vC1w : Variant :=
  { Description := "", Tokens := [("primary", "black"), ("bg", "#000")],
    Templates := [], Assets := ⟨"", []⟩ }

/-- Manifest of the C1 witness (the `TestTokensForVariantMerges` fixture). -/
def mC1w : Manifest :=
  { Name := "default", Version := "1.0.0", Description := "",
    Tokens := [("primary", "blue")], Fonts := [], Assets := ⟨"", []⟩,
    Templates := [], Variants := [("dark", vC1w)] }

/-- Closed witness for C1: the amended theorem at the test fixture. -/
theorem C1_tokensForVariant_amended_witness :
    mapGet (mC1w.TokensForVariant "dark") "primary"
      = orO (mapGet vC1w.Tokens "primary") (mapGet mC1w.Tokens "primary") :=
  (C1_tokensForVariant_amended mC1w "dark" (by decide) (by decide)).1 vC1w
    (by decide) (by decide) (by decide) "primary"

/-! ## Claim C5: Template precedence -/

/-- Lookup in which an empty-string value counts as absent — the spec's
reading of template/asset precedence. -/
def lookupNonEmpty (mp : GoMap String) (k : String) : Option String :=
  match mapGet mp k with
  | some v => if v = "" then none else some v
  | none => none

theorem lookupNonEmpty_ne_empty {mp : GoMap String} {k v : String}
    (h : lookupNonEmpty mp k = some v) : v ≠ "" := by
  cases hg : mapGet mp k with
  | none => simp [lookupNonEmpty, hg] at h
  | some w =>
    simp only [lookupNonEmpty, hg] at h
    by_cases hw : w = ""
    · rw [if_pos hw] at h
      cases h
    · rw [if_neg hw] at h
      injection h with hh
      rw [← hh]
      exact hw

theorem variant_default : (default : Variant) = ⟨"", [], [], ⟨"", []⟩⟩ := rfl

/-- The variant of the C5 counterexample, stored under the empty name. -/
def vC5 : Variant :=
  { Description := "", Tokens := [], Templates := [("k", "vt.tmpl")], Assets := ⟨"", []⟩ }

/-- Selection whose variant is `""` while the manifest has a variant stored
under `""` with a non-empty template value for the key. -/
def selC5 : Selection :=
  { Theme := "t", Variant := "",
    Manifest := some
      { Name := "t", Version := "1", Description := "", Tokens := [], Fonts := [],
        Assets := ⟨"", []⟩, Templates := [], Variants := [("", vC5)] } }

/-- C5 counterexample: the selection's variant template map holds a non-empty
value for the key, yet `Template` skips it and returns the fallback — variant
precedence does not apply when the selection's variant is the empty string. -/
theorem C5_counterexample :
    mapGet ((selC5.Manifest.getD default).Variants) selC5.Variant = some vC5 ∧
    mapGet vC5.Templates "k" = some "vt.tmpl" ∧ ("vt.tmpl" : String) ≠ "" ∧
    selC5.Template "k" "fb" = "fb" ∧ ("fb" : String) ≠ "vt.tmpl" := by decide

/-- C5 (amended): `Template` trims the key; a blank trimmed key or nil
manifest yields the fallback; otherwise precedence is variant map → base map
→ fallback with empty-string values treated as absent, EXCEPT that a
selection whose variant is the empty string skips the variant map even if a
variant is stored under `""`. -/
theorem C5_template_amended (s : Selection) (key fb : String) :
    s.Template key fb =
      match s.Manifest with
      | none => fb
      | some m =>
        if trimSpace key = "" then fb
        else
          (orO
            (lookupNonEmpty
              (if s.Variant = "" then []
               else (mapGetD m.Variants s.Variant).Templates) (trimSpace key))
            (lookupNonEmpty m.Templates (trimSpace key))).getD fb := by
  rw [Selection.Template, resolveTemplate.eq_def]
  cases hm : s.Manifest with
  | none => rfl
  | some m =>
    dsimp only
    by_cases hk : trimSpace key = ""
    · simp [hk]
    · simp only [hk, if_neg hk]
      have hbase : manifestTemplate (some m) "" (trimSpace key)
          = (mapGet m.Templates (trimSpace key)).getD "" := by
        simp [manifestTemplate, mapGetD]
      by_cases hv : s.Variant = ""
      · rw [hv]
        simp only [if_pos rfl]
        rw [hbase]
        cases hb : mapGet m.Templates (trimSpace key) with
        | none => simp [lookupNonEmpty, hb, mapGet_nil, orO]
        | some v =>
          by_cases hvv : v = ""
          · simp [lookupNonEmpty, hb, hvv, mapGet_nil, orO]
          · simp [lookupNonEmpty, hb, hvv, mapGet_nil, orO]
      · simp only [if_neg hv]
        have hvar : manifestTemplate (some m) s.Variant (trimSpace key)
            = ((lookupNonEmpty (mapGetD m.Variants s.Variant).Templates (trimSpace key)).getD "") := by
          simp only [manifestTemplate, if_neg hv]
          cases hvm : mapGet m.Variants s.Variant with
          | none => simp [mapGetD, hvm, lookupNonEmpty, variant_default, mapGet_nil]
          | some vr =>
            simp only [mapGetD, hvm, Option.getD_some]
            cases hvt : mapGet vr.Templates (trimSpace key) with
            | none => simp [mapGetD, hvt, lookupNonEmpty]
            | some v =>
              by_cases hvv : v = ""
              · simp [mapGetD, hvt, hvv, lookupNonEmpty]
              · simp [mapGetD, hvt, hvv, lookupNonEmpty]
        rw [hvar, hbase]
        cases hl1 : lookupNonEmpty (mapGetD m.Variants s.Variant).Templates (trimSpace key) with
        | some v1 =>
          have hv1 : v1 ≠ "" := lookupNonEmpty_ne_empty hl1
          simp [hv1, orO]
        | none =>
          simp only [Option.getD_none, orO_none]
          rw [if_neg (by simp)]
          cases hb : mapGet m.Templates (trimSpace key) with
          | none => simp [lookupNonEmpty, hb]
          | some v =>
            by_cases hvv : v = ""
            · simp [lookupNonEmpty, hb, hvv]
            · simp [lookupNonEmpty, hb, hvv]

/-! ## Claim C3: asset resolution -/

/-- Fixture manifest of the C3 examples (the `TestSelectionAssetResolution`
data). -/
def mC3 : Manifest :=
  { Name := "default", Version := "1.0.0", Description := "", Tokens := [], Fonts := [],
    Assets := ⟨"/static", [("logo", "logo.png"), ("banner", "/images/banner.png")]⟩,
    Templates := [],
    Variants := [("dark",
      { Description := "", Tokens := [], Templates := [],
        Assets := ⟨"https://cdn.example.com/theme/", [("logo", "logo-dark.png")]⟩ })] }

/-- C3: `Asset` trims the key (blank gives not-found); the active prefix is
the variant's asset prefix when non-blank else the base prefix, with one
trailing slash stripped; the variant's asset-files map is consulted first
(non-empty value wins), else the base map; a found path is joined to the
active prefix with one leading slash stripped — and the two concrete joins of
the spec resolve with exactly one slash at the join point. -/
theorem C3_asset_resolution :
    (∀ (s : Selection) (key : String),
      s.Asset key =
        match s.Manifest with
        | none => none
        | some m =>
          if trimSpace key = "" then none
          else
            (orO
              (lookupNonEmpty (mapGetD m.Variants s.Variant).Assets.Files (trimSpace key))
              (lookupNonEmpty m.Assets.Files (trimSpace key))).map
              (joinPath (goTrimSuffixStr
                (if trimSpace (mapGetD m.Variants s.Variant).Assets.Prefix ≠ ""
                 then (mapGetD m.Variants s.Variant).Assets.Prefix
                 else m.Assets.Prefix) "/"))) ∧
    Selection.Asset ⟨"default", "light", some mC3⟩ "banner"
      = some "/static/images/banner.png" ∧
    Selection.Asset ⟨"default", "dark", some mC3⟩ "logo"
      = some "https://cdn.example.com/theme/logo-dark.png" ∧
    Selection.Asset ⟨"default", "light", some mC3⟩ "favicon" = none ∧
    Selection.Asset ⟨"default", "dark", some mC3⟩ "  " = none := by
  refine ⟨?_, by decide, by decide, by decide, by decide⟩
  intro s key
  rw [Selection.Asset, resolveAsset.eq_def]
  cases hm : s.Manifest with
  | none => rfl
  | some m =>
    dsimp only
    by_cases hk : trimSpace key = ""
    · simp [hk]
    · simp only [hk, if_neg hk, activePrefix]
      cases hv : mapGet (mapGetD m.Variants s.Variant).Assets.Files (trimSpace key) with
      | some p =>
        by_cases hp : p = ""
        · simp only [hp, if_neg (by simp : ¬ ("" : String) ≠ "")]
          cases hb : mapGet m.Assets.Files (trimSpace key) with
          | some bp =>
            by_cases hbp : bp = "" <;>
              simp [lookupNonEmpty, hv, hb, hp, hbp, orO]
          | none => simp [lookupNonEmpty, hv, hb, hp, orO]
        · simp [lookupNonEmpty, hv, hp, orO]
      | none =>
        cases hb : mapGet m.Assets.Files (trimSpace key) with
        | some bp =>
          by_cases hbp : bp = "" <;>
            simp [lookupNonEmpty, hv, hb, hbp, orO]
        | none => simp [lookupNonEmpty, hv, hb, orO]

/-! ## Claim C2: Get resolution -/

theorem mapGet_isSome_of_key_mem {α : Type} {m : GoMap α} {k : String}
    (h : k ∈ mapKeys m) : ∃ v, mapGet m k = some v := by
  rw [mapKeys] at h
  obtain ⟨p, hp, he⟩ := List.mem_map.mp h
  refine mapGet_isSome_of_mem (v := p.2) ?_
  rw [← he]
  simpa using hp

/-- C2: for a registered name (a stored non-empty version set with valid
version strings): an exact stored version is returned as a copy; an exact
missing version with fallback disabled fails with `versionNotFound`; otherwise
(no exact version, or exact missing with fallback allowed) a copy of a stored
manifest whose version is maximal under `compareVersions` is returned. -/
theorem C2_get_resolution (r : RegState) (name : String) (opts : List QueryOption)
    (versions : GoMap Manifest)
    (hname : trimSpace name ≠ "")
    (hlook : mapGet r name = some versions)
    (hne : versions ≠ [])
    (hkeys : ∀ p ∈ versions, p.1 ≠ "")
    (hwf : ∀ p ∈ versions, manifestWF p.2) :
    ((applySettings opts).version ≠ "" →
      ∀ mv, mapGet versions (applySettings opts).version = some mv →
        Get r name opts = .ok (some mv)) ∧
    ((applySettings opts).version ≠ "" →
      mapGet versions (applySettings opts).version = none →
      (applySettings opts).allowFallback = false →
      Get r name opts = .error (.versionNotFound name (applySettings opts).version)) ∧
    (((applySettings opts).version = "" ∨
        (mapGet versions (applySettings opts).version = none ∧
          (applySettings opts).allowFallback = true)) →
      ∃ v mv, mapGet versions v = some mv ∧ Get r name opts = .ok (some mv) ∧
        ∀ p ∈ versions, compareVersions p.1 v ≤ 0) := by
  have hlen : ¬ versions.length = 0 := by
    intro h
    exact hne (List.length_eq_zero.mp h)
  have hGet : Get r name opts =
      (if (applySettings opts).version ≠ "" then
        match mapGet versions (applySettings opts).version with
        | some m => .ok (some (copyManifest m))
        | none =>
          if ¬ (applySettings opts).allowFallback then
            .error (.versionNotFound name (applySettings opts).version)
          else
            if latestVersion versions = "" then .error (.themeNotFound name)
            else .ok (copyManifestOpt (mapGet versions (latestVersion versions)))
      else
        if latestVersion versions = "" then .error (.themeNotFound name)
        else .ok (copyManifestOpt (mapGet versions (latestVersion versions)))) := by
    rw [Get, if_neg (by simpa using hname), hlook]
    dsimp only
    rw [if_neg hlen]
  obtain ⟨hlv1, hlv2, hlv3⟩ := latestVersion_spec versions hne hkeys
  obtain ⟨mv0, hmv0⟩ := mapGet_isSome_of_key_mem hlv2
  have hmv0wf : manifestWF mv0 := hwf _ (mem_of_mapGet_eq_some hmv0)
  have hlatest : Get r name opts =
        (if (applySettings opts).version ≠ "" then
          match mapGet versions (applySettings opts).version with
          | some m => .ok (some (copyManifest m))
          | none =>
            if ¬ (applySettings opts).allowFallback then
              .error (.versionNotFound name (applySettings opts).version)
            else .ok (some mv0)
        else .ok (some mv0)) := by
    rw [hGet, if_neg hlv1, hmv0]
    simp only [copyManifestOpt, copyManifest_eq _ hmv0wf]
  refine ⟨?_, ?_, ?_⟩
  · intro hv mv hmv
    have hmvwf : manifestWF mv := hwf _ (mem_of_mapGet_eq_some hmv)
    rw [hlatest, if_pos hv, hmv]
    dsimp only
    rw [copyManifest_eq _ hmvwf]
  · intro hv hmiss hfb
    rw [hlatest, if_pos hv, hmiss]
    dsimp only
    rw [if_pos (by simp [hfb])]
  · intro hcase
    refine ⟨latestVersion versions, mv0, hmv0, ?_, hlv3⟩
    rcases hcase with hv | ⟨hmiss, hfb⟩
    · rw [hlatest, if_neg (by simp [hv])]
    · by_cases hv : (applySettings opts).version = ""
      · rw [hlatest, if_neg (by simp [hv])]
      · rw [hlatest, if_pos hv, hmiss]
        dsimp only
        rw [if_neg (by simp [hfb])]

/-- Manifests and registry state for the C2 witness. -/
def mC2a : Manifest :=
  { Name := "alpha", Version := "1.0.0", Description := "",
    Tokens := [("primary", "blue")], Fonts := [], Assets := ⟨"", []⟩,
    Templates := [], Variants := [] }

def mC2b : Manifest :=
  { Name := "alpha", Version := "1.1.0", Description := "",
    Tokens := [("primary", "red")], Fonts := [], Assets := ⟨"", []⟩,
    Templates := [], Variants := [] }

def stC2 : RegState := [("alpha", [("1.0.0", mC2a), ("1.1.0", mC2b)])]

/-- Closed witness for C2: the exact-version clause at a concrete registry. -/
theorem C2_get_resolution_witness :
    Get stC2 "alpha" [WithVersion "1.0.0"] = .ok (some mC2a) :=
  (C2_get_resolution stC2 "alpha" [WithVersion "1.0.0"]
      [("1.0.0", mC2a), ("1.1.0", mC2b)]
      (by decide) (by decide) (by decide) (by decide) (by decide)).1
    (by decide) mC2a (by decide)

/-! ## Claim C4: Select fallback to the default theme -/

instance {ε α : Type} [DecidableEq ε] [DecidableEq α] : DecidableEq (Except ε α)
  | .error e1, .error e2 =>
    if h : e1 = e2 then isTrue (by rw [h])
    else isFalse (by intro hc; cases hc; exact h rfl)
  | .error _, .ok _ => isFalse (by intro hc; cases hc)
  | .ok _, .error _ => isFalse (by intro hc; cases hc)
  | .ok a1, .ok a2 =>
    if h : a1 = a2 then isTrue (by rw [h])
    else isFalse (by intro hc; cases hc; exact h rfl)

/-- Manifest registered under the default theme name for C4. -/
def mC4 : Manifest :=
  { Name := "default", Version := "1.0.0", Description := "",
    Tokens := [("primary", "blue")], Fonts := [], Assets := ⟨"", []⟩,
    Templates := [], Variants := [] }

/-- Registry state holding only the default theme. -/
def stC4 : RegState := [("default", [("1.0.0", mC4)])]

/-- Selector with a configured default theme. -/
def selC4 : Selector :=
  { Registry := some stC4, DefaultTheme := "default", DefaultVariant := "" }

/-- C4 counterexample: the first lookup of "missing" fails, the retry against
the default theme supplies the manifest, yet the returned Selection records
the requested name "missing" — not the default theme's name, whose lookup is
the one that succeeded. -/
theorem C4_counterexample :
    Get stC4 "missing" [] = .error (.themeNotFound "missing") ∧
    Selector.Select selC4 "missing" "dark" []
      = .ok { Theme := "missing", Variant := "dark", Manifest := some mC4 } ∧
    ("missing" : String) ≠ "default" := by decide

/-- C4 (amended): when the first lookup of the (trimmed, possibly
default-substituted) theme name fails and a distinct non-empty default theme
is configured, `Select` retries with the default theme name; if both lookups
fail it returns a wrapped resolve-theme error carrying the underlying cause.
On success the Selection records the REQUESTED (trimmed, possibly
default-substituted) theme name — also when the retry supplied the manifest —
together with the (possibly substituted) variant and the fetched manifest. -/
theorem C4_select_fallback (s : Selector) (reg : RegState)
    (themeName0 variant0 : String) (opts : List QueryOption)
    (hreg : s.Registry = some reg) :
    (∀ mf, Get reg (if trimSpace themeName0 = "" then s.DefaultTheme
        else trimSpace themeName0) opts = .ok mf →
      Selector.Select s themeName0 variant0 opts =
        .ok ⟨if trimSpace themeName0 = "" then s.DefaultTheme else trimSpace themeName0,
          if variant0 = "" then s.DefaultVariant else variant0, mf⟩) ∧
    (∀ e1, Get reg (if trimSpace themeName0 = "" then s.DefaultTheme
        else trimSpace themeName0) opts = .error e1 →
      (s.DefaultTheme ≠ "" ∧ (if trimSpace themeName0 = "" then s.DefaultTheme
        else trimSpace themeName0) ≠ s.DefaultTheme) →
      ((∀ mf, Get reg s.DefaultTheme opts = .ok mf →
        Selector.Select s themeName0 variant0 opts =
          .ok ⟨if trimSpace themeName0 = "" then s.DefaultTheme else trimSpace themeName0,
            if variant0 = "" then s.DefaultVariant else variant0, mf⟩) ∧
       (∀ e2, Get reg s.DefaultTheme opts = .error e2 →
        Selector.Select s themeName0 variant0 opts = .error (.resolveTheme e2)))) ∧
    (∀ e1, Get reg (if trimSpace themeName0 = "" then s.DefaultTheme
        else trimSpace themeName0) opts = .error e1 →
      ¬ (s.DefaultTheme ≠ "" ∧ (if trimSpace themeName0 = "" then s.DefaultTheme
        else trimSpace themeName0) ≠ s.DefaultTheme) →
      Selector.Select s themeName0 variant0 opts = .error (.resolveTheme e1)) := by
  refine ⟨?_, ?_, ?_⟩
  · intro mf hmf
    simp only [Selector.Select, hreg]
    rw [hmf]
  · intro e1 he1 hcond
    constructor
    · intro mf hmf
      simp only [Selector.Select, hreg]
      rw [he1]
      dsimp only
      rw [if_pos hcond, hmf]
    · intro e2 he2
      simp only [Selector.Select, hreg]
      rw [he1]
      dsimp only
      rw [if_pos hcond, he2]
  · intro e1 he1 hcond
    simp only [Selector.Select, hreg]
    rw [he1]
    dsimp only
    rw [if_neg hcond]

/-- Closed witness for C4: the retry clause at the concrete selector. -/
theorem C4_select_fallback_witness :
    Selector.Select selC4 "missing" "dark" []
      = .ok ⟨"missing", "dark", some mC4⟩ :=
  ((C4_select_fallback selC4 stC4 "missing" "dark" [] rfl).2.1
      (.themeNotFound "missing") (by decide) (by decide)).1 (some mC4) (by decide)

/-! ## Claim C9: Snapshot resolution -/

/-- The `dark` variant of the `TestSelectionSnapshotResolution` fixture. -/
def vC9 : Variant :=
  { Description := "", Tokens := [("primary", "#0f172a")],
    Templates := [("layout.header", "templates/dark/header.tmpl")],
    Assets := ⟨"https://cdn.example.com/theme", [("logo", "logo-dark.svg")]⟩ }

/-- The manifest of the `TestSelectionSnapshotResolution` fixture. -/
def mC9 : Manifest :=
  { Name := "brand", Version := "1.0.0", Description := "",
    Tokens := [("primary", "#0044ff"), ("accent", "#ffaa00")], Fonts := [],
    Assets := ⟨"/static/theme", [("logo", "logo.svg"), ("favicon", "favicon.ico")]⟩,
    Templates := [("layout.header", "templates/header.tmpl"),
      ("forms.input", "templates/forms/input.tmpl")],
    Variants := [("dark", vC9)] }

/-- The selection of the `TestSelectionSnapshotResolution` fixture. -/
def selSnapC9 : Selection := ⟨"brand", "dark", some mC9⟩

/-- C9 counterexample: on the snapshot unit-test fixture the active prefix is
the variant's CDN prefix, yet the base-origin asset `favicon` is joined with
the BASE prefix, not the active one — the same-single-active-prefix clause of
the claim fails (this is exactly what `TestSelectionSnapshotResolution`
asserts on lines 167-169). -/
theorem C9_counterexample :
    (selSnapC9.Snapshot).AssetPrefix = "https://cdn.example.com/theme" ∧
    mapGet (selSnapC9.Snapshot).Assets "favicon" = some "/static/theme/favicon.ico" ∧
    joinPath "https://cdn.example.com/theme" "favicon.ico"
      = "https://cdn.example.com/theme/favicon.ico" ∧
    ("/static/theme/favicon.ico" : String) ≠ "https://cdn.example.com/theme/favicon.ico" := by
  decide

/-- C9 (amended): `Snapshot` returns templates and assets as key-by-key
unions with variant entries overriding same-key base entries; every
variant-origin asset value is joined with the active prefix (variant prefix
when non-blank, else base), while every base-origin asset value is joined
with the BASE prefix; `AssetPrefix` equals the active prefix after
trailing-slash normalization. -/
theorem C9_snapshot_amended (s : Selection) (m : Manifest)
    (hm : s.Manifest = some m)
    (hwfT : mapWF m.Templates)
    (hwfVT : mapWF (mapGetD m.Variants s.Variant).Templates)
    (hwfVA : mapWF (mapGetD m.Variants s.Variant).Assets.Files) :
    s.Snapshot.Theme = s.Theme ∧ s.Snapshot.Variant = s.Variant ∧
    s.Snapshot.Tokens = m.TokensForVariant s.Variant ∧
    s.Snapshot.AssetPrefix = goTrimSuffixStr
      (activePrefix m.Assets.Prefix (mapGetD m.Variants s.Variant).Assets.Prefix) "/" ∧
    (∀ k, mapGet s.Snapshot.Templates k =
      orO (mapGet (mapGetD m.Variants s.Variant).Templates k) (mapGet m.Templates k)) ∧
    (∀ k, mapGet s.Snapshot.Assets k =
      orO
        ((mapGet (mapGetD m.Variants s.Variant).Assets.Files k).map
          (joinPath (goTrimSuffixStr (activePrefix m.Assets.Prefix
            (mapGetD m.Variants s.Variant).Assets.Prefix) "/")))
        ((mapGet m.Assets.Files k).map
          (joinPath (goTrimSuffixStr m.Assets.Prefix "/")))) := by
  have hsnap : s.Snapshot =
      { Theme := s.Theme, Variant := s.Variant,
        Tokens := m.TokensForVariant s.Variant,
        Templates := (mapGetD m.Variants s.Variant).Templates.foldl
          (fun acc kv => mapPut acc kv.1 kv.2) (cloneStringMap m.Templates),
        Assets := (mapGetD m.Variants s.Variant).Assets.Files.foldl
          (fun acc kv => mapPut acc kv.1
            (joinPath (goTrimSuffixStr (activePrefix m.Assets.Prefix
              (mapGetD m.Variants s.Variant).Assets.Prefix) "/") kv.2))
          (m.Assets.Files.map
            (fun kv => (kv.1, joinPath (goTrimSuffixStr m.Assets.Prefix "/") kv.2))),
        AssetPrefix := goTrimSuffixStr (activePrefix m.Assets.Prefix
          (mapGetD m.Variants s.Variant).Assets.Prefix) "/" } := by
    rw [Selection.Snapshot.eq_def, hm]
  rw [hsnap]
  refine ⟨rfl, rfl, rfl, rfl, ?_, ?_⟩
  · intro k
    dsimp only
    have hmain := mapGet_foldl_put (fun _ v => v)
      (mapGetD m.Variants s.Variant).Templates (cloneStringMap m.Templates) k hwfVT
    simp only at hmain
    rw [hmain, cloneStringMap_eq _ hwfT]
    cases mapGet (mapGetD m.Variants s.Variant).Templates k <;> simp [orO]
  · intro k
    dsimp only
    have hmain := mapGet_foldl_put
      (fun _ v => joinPath (goTrimSuffixStr (activePrefix m.Assets.Prefix
        (mapGetD m.Variants s.Variant).Assets.Prefix) "/") v)
      (mapGetD m.Variants s.Variant).Assets.Files
      (m.Assets.Files.map
        (fun kv => (kv.1, joinPath (goTrimSuffixStr m.Assets.Prefix "/") kv.2)))
      k hwfVA
    simp only at hmain
    rw [hmain]
    have hbase := mapGet_map_value
      (fun _ v => joinPath (goTrimSuffixStr m.Assets.Prefix "/") v) m.Assets.Files k
    simp only at hbase
    rw [hbase]

/-- Closed witness for C9: the asset clause of the amended theorem at the
snapshot test fixture, key `favicon`. -/
theorem C9_snapshot_amended_witness :
    mapGet (selSnapC9.Snapshot).Assets "favicon" =
      orO
        ((mapGet (mapGetD mC9.Variants "dark").Assets.Files "favicon").map
          (joinPath (goTrimSuffixStr (activePrefix mC9.Assets.Prefix
            (mapGetD mC9.Variants "dark").Assets.Prefix) "/")))
        ((mapGet mC9.Assets.Files "favicon").map
          (joinPath (goTrimSuffixStr mC9.Assets.Prefix "/"))) :=
  (C9_snapshot_amended selSnapC9 mC9 rfl (by decide) (by decide) (by decide)).2.2.2.2.2
    "favicon"

/-! ## Claim C10: variant substitution happens only on the exact empty string -/

theorem mem_foldl_append_of_mem_acc {β : Type} (f : β → List String)
    (l : List β) (acc : List String) (x : String) (hx : x ∈ acc) :
    x ∈ l.foldl (fun a q => a ++ f q) acc := by
  induction l generalizing acc with
  | nil => exact hx
  | cons p t ih =>
    rw [List.foldl_cons]
    exact ih _ (List.mem_append.mpr (Or.inl hx))

theorem mem_foldl_append {β : Type} (f : β → List String) (l : List β)
    (acc : List String) (x : String) (p : β) (hp : p ∈ l) (hx : x ∈ f p) :
    x ∈ l.foldl (fun a q => a ++ f q) acc := by
  induction l generalizing acc with
  | nil => simp at hp
  | cons q t ih =>
    rw [List.foldl_cons]
    rcases List.mem_cons.mp hp with h | h
    · exact mem_foldl_append_of_mem_acc f t _ x
        (List.mem_append.mpr (Or.inr (h ▸ hx)))
    · exact ih _ h

/-- A validated manifest has no variant stored under a blank name. -/
theorem validated_no_blank_variant {m : Manifest} (hval : validateIssues m = [])
    {w : String} (hw : trimSpace w = "") : mapGet m.Variants w = none := by
  cases hg : mapGet m.Variants w with
  | none => rfl
  | some vt =>
    exfalso
    have hmem : (w, vt) ∈ m.Variants := mem_of_mapGet_eq_some hg
    have hiss : "variant name cannot be empty" ∈ variantIssues (w, vt) := by
      rw [variantIssues]
      exact List.mem_append.mpr (Or.inl (List.mem_append.mpr (Or.inl
        (List.mem_append.mpr (Or.inl (by rw [hw, if_pos rfl]; exact List.mem_singleton.mpr rfl))))))
    have hmain : "variant name cannot be empty" ∈ validateIssues m := by
      rw [validateIssues]
      refine List.mem_append.mpr (Or.inr ?_)
      exact mem_foldl_append variantIssues m.Variants [] _ (w, vt) hmem hiss
    rw [hval] at hmain
    simp at hmain

/-- The shape of every successful `Select`: the recorded theme name and the
substituted variant. -/
theorem Select_ok_shape {s : Selector} {reg : RegState} {tn v : String}
    {opts : List QueryOption} {sel : Selection} (hreg : s.Registry = some reg)
    (h : Selector.Select s tn v opts = .ok sel) :
    sel.Theme = (if trimSpace tn = "" then s.DefaultTheme else trimSpace tn) ∧
    sel.Variant = (if v = "" then s.DefaultVariant else v) := by
  simp only [Selector.Select, hreg] at h
  cases h1 : Get reg (if trimSpace tn = "" then s.DefaultTheme else trimSpace tn) opts with
  | ok mf =>
    rw [h1] at h
    dsimp only at h
    injection h with h
    rw [← h]
    exact ⟨rfl, rfl⟩
  | error e1 =>
    rw [h1] at h
    dsimp only at h
    by_cases hc : s.DefaultTheme ≠ "" ∧
        (if trimSpace tn = "" then s.DefaultTheme else trimSpace tn) ≠ s.DefaultTheme
    · rw [if_pos hc] at h
      cases h2 : Get reg s.DefaultTheme opts with
      | ok mf =>
        rw [h2] at h
        dsimp only at h
        injection h with h
        rw [← h]
        exact ⟨rfl, rfl⟩
      | error e2 =>
        rw [h2] at h
        dsimp only at h
        exact Except.noConfusion h
    · rw [if_neg hc] at h
      dsimp only at h
      exact Except.noConfusion h

/-- C10: `Select` substitutes `DefaultVariant` only when the caller's variant
is exactly the empty string; a whitespace-only variant is neither trimmed nor
substituted and is stored verbatim, where (for a validated manifest) it
matches no variant map key, so tokens and templates resolve base-only —
whereas the theme name IS trimmed before its default substitution. -/
theorem C10_variant_substitution (s : Selector) (reg : RegState)
    (tn v : String) (opts : List QueryOption) (sel : Selection)
    (hreg : s.Registry = some reg) :
    (trimSpace v = "" → v ≠ "" →
      Selector.Select s tn v opts = .ok sel → sel.Variant = v) ∧
    (Selector.Select s tn "" opts = .ok sel → sel.Variant = s.DefaultVariant) ∧
    (Selector.Select s tn v opts = .ok sel →
      sel.Theme = (if trimSpace tn = "" then s.DefaultTheme else trimSpace tn)) ∧
    (∀ m : Manifest, validateIssues m = [] → trimSpace v = "" → v ≠ "" →
      mapGet m.Variants v = none ∧
      (mapWF m.Tokens → m.TokensForVariant v = m.Tokens) ∧
      (∀ key fb, Selection.Template ⟨sel.Theme, v, some m⟩ key fb =
        (if trimSpace key = "" then fb
         else (lookupNonEmpty m.Templates (trimSpace key)).getD fb))) := by
  refine ⟨?_, ?_, ?_, ?_⟩
  · intro hvw hvne h
    rw [(Select_ok_shape hreg h).2, if_neg hvne]
  · intro h
    rw [(Select_ok_shape hreg h).2, if_pos rfl]
  · intro h
    exact (Select_ok_shape hreg h).1
  · intro m hval hvw hvne
    have hnone : mapGet m.Variants v = none := validated_no_blank_variant hval hvw
    refine ⟨hnone, ?_, ?_⟩
    · intro hwf
      rw [Manifest.TokensForVariant, if_neg hvne, hnone]
      exact cloneStringMap_eq _ hwf
    · intro key fb
      rw [Selection.Template, resolveTemplate.eq_def]
      dsimp only
      by_cases hk : trimSpace key = ""
      · simp [hk]
      · simp only [hk, if_neg hk]
        have hvar : manifestTemplate (some m) v (trimSpace key) = "" := by
          simp only [manifestTemplate, if_neg hvne, hnone]
        rw [hvar]
        rw [if_neg (by simp)]
        have hbase : manifestTemplate (some m) "" (trimSpace key)
            = (mapGet m.Templates (trimSpace key)).getD "" := by
          simp [manifestTemplate, mapGetD]
        rw [hbase]
        cases hb : mapGet m.Templates (trimSpace key) with
        | none => simp [lookupNonEmpty, hb]
        | some w =>
          by_cases hw : w = ""
          · simp [lookupNonEmpty, hb, hw]
          · simp [lookupNonEmpty, hb, hw]

/-- The validated manifest of the C10 witness. -/
def mC10 : Manifest :=
  { Name := "t", Version := "1", Description := "",
    Tokens := [("primary", "blue")], Fonts := [], Assets := ⟨"", []⟩,
    Templates := [],
    Variants := [("dark",
      { Description := "", Tokens := [("primary", "black")], Templates := [],
        Assets := ⟨"", []⟩ })] }

/-- Registry state of the C10 witness. -/
def stC10 : RegState := [("t", [("1", mC10)])]

/-- Selector of the C10 witness. -/
def selC10 : Selector :=
  { Registry := some stC10, DefaultTheme := "t", DefaultVariant := "dark" }

/-- Closed witness for C10: a whitespace-only variant is stored verbatim and
matches no key of a validated manifest's variant map. -/
theorem C10_variant_substitution_witness :
    (Selection.mk "t" " " (some mC10)).Variant = " " ∧
    mapGet mC10.Variants " " = none := by
  have h := C10_variant_substitution selC10 stC10 "t" " " []
    (Selection.mk "t" " " (some mC10)) rfl
  exact ⟨h.1 (by decide) (by decide) (by decide),
    (h.2.2.2 mC10 (by decide) (by decide) (by decide)).1⟩

end GoTheme
